import Mathlib

set_option linter.unusedVariables false

/-! Shallow embedding of CRSLab's batching utilities
(`crslab/data/dataloader/base_dataloader.py`) and metric evaluators
(`crslab/evaluator/conv_evaluator.py`, `crslab/evaluator/rec_evaluator.py`).
Token sequences are `List Int` (int64 token ids), tensors are lists of rows,
Python exceptions are `Option`/`Except` failures, and `random.shuffle` is an
explicitly passed permutation of the index list. -/

/-- Embeds the slice `vec[-m:]` used by `truncate`'s tail branch: Python's
negative slice selects the whole list when `m = 0` (since `-0 == 0`) and the
last `m` elements otherwise. -/
def negSlice {α : Type} (vec : List α) (m : Nat) : List α :=
  if m = 0 then vec else vec.drop (vec.length - m)

/-- Embeds `truncate(vec, max_length, truncate_tail)` from
`base_dataloader.py` lines 97-106. -/
def truncate {α : Type} (vec : List α) (maxLength : Option Nat) (truncateTail : Bool) : List α :=
  match maxLength with
  | none => vec
  | some m =>
    if vec.length ≤ m then vec
    else if truncateTail then vec.take m
    else negSlice vec m

/-- The matrix width `t` computed by `padded_tensor`: `max(lens)` when
`max_len` is `None`, else `max_len`, then raised to at least 1. -/
def padWidth (items : List (List Int)) (maxLen : Option Nat) : Nat :=
  max (match maxLen with
       | none => (items.map List.length).foldr max 0
       | some m => m) 1

/-- One row of the padded matrix: the row is filled with `pad_idx` and the
item is written at the start (right padding) or at the end (left padding). -/
def padRow (t : Nat) (padIdx : Int) (rightPadded : Bool) (item : List Int) : List Int :=
  if rightPadded then item ++ List.replicate (t - item.length) padIdx
  else List.replicate (t - item.length) padIdx ++ item

/-- Embeds `padded_tensor` from `base_dataloader.py` lines 18-74. Python
raises on an empty `items` list (`max(lens)` of an empty sequence when
`max_len` is `None`, `items[0]` otherwise) and on an item longer than the
matrix width `t` (the assignment `output[i, :length] = item` is a shape
mismatch); both failures are modelled as `none`. -/
def paddedTensor (items : List (List Int)) (padIdx : Int) (rightPadded : Bool)
    (maxLen : Option Nat) : Option (List (List Int)) :=
  if items.isEmpty then none
  else
    let t := padWidth items maxLen
    if items.all (fun it => it.length ≤ t) then
      some (items.map (padRow t padIdx rightPadded))
    else none

/-- `batch_num = ceil(len(dataset) / batch_size)` as computed by
`batch_split`, as a natural-number ceiling division. -/
def batchNum (n b : Nat) : Nat := (n + b - 1) / b

/-- Embeds `batch_split(dataset, batch_size, shuffle)` from
`base_dataloader.py` lines 87-94. The generator is modelled as the list of
yielded batches. `random.shuffle(idx_list)` is modelled by passing the
(possibly shuffled) index list explicitly: `shuffle=False` corresponds to
`idxList = List.range dataset.length`, `shuffle=True` to an arbitrary
permutation of it. `dataset[idx]` is `getD` (indices stay in range). -/
def batchSplit {α : Type} [Inhabited α] (dataset : List α) (b : Nat) (idxList : List Nat) :
    List (List α) :=
  (List.range (batchNum dataset.length b)).map
    (fun s => ((idxList.drop (s * b)).take b).map (fun i => dataset.getD i default))

/-- Python exceptions raised by the dataloader hooks. -/
inductive PyError where
  | notImplementedError (msg : String)
  deriving DecidableEq

/-- Embeds the `BaseDataLoader` object state: `opt` plays no role in the
claims, so only `dataset` is kept. -/
structure BaseDataLoader (α : Type) where
  dataset : List α

/-- Embeds `BaseDataLoader.conv_batchify`, which unconditionally raises
`NotImplementedError`. -/
def convBatchify (α β : Type) (batch : List α) : Except PyError β :=
  .error (.notImplementedError "dataloader must implement conv_batchify() method")

/-- Embeds `BaseDataLoader.rec_batchify`. -/
def recBatchify (α β : Type) (batch : List α) : Except PyError β :=
  .error (.notImplementedError "dataloader must implement rec_batchify() method")

/-- Embeds `BaseDataLoader.guide_batchify`. -/
def guideBatchify (α β : Type) (batch : List α) : Except PyError β :=
  .error (.notImplementedError "dataloader must implement guide_batchify() method")

/-- Embeds `BaseDataLoader.get_data`: each yielded batch is `batch_fn`
applied to a `batch_split` batch of the (processed) dataset; the default
`*_process_fn` hooks return `self.dataset` unchanged, which is inlined. -/
def getData {α β : Type} [Inhabited α] (dl : BaseDataLoader α)
    (batchFn : List α → Except PyError β) (batchSize : Nat) (idxList : List Nat) :
    List (Except PyError β) :=
  (batchSplit dl.dataset batchSize idxList).map batchFn

/-- Embeds `BaseDataLoader.get_conv_data` on a loader that does not override
the hooks. -/
def getConvData (α β : Type) [Inhabited α] (dl : BaseDataLoader α) (batchSize : Nat)
    (idxList : List Nat) : List (Except PyError β) :=
  getData dl (convBatchify α β) batchSize idxList

/-- Embeds `BaseDataLoader.get_rec_data` on a loader that does not override
the hooks. -/
def getRecData (α β : Type) [Inhabited α] (dl : BaseDataLoader α) (batchSize : Nat)
    (idxList : List Nat) : List (Except PyError β) :=
  getData dl (recBatchify α β) batchSize idxList

/-- Embeds `BaseDataLoader.get_guide_data` on a loader that does not
override the hooks. -/
def getGuideData (α β : Type) [Inhabited α] (dl : BaseDataLoader α) (batchSize : Nat)
    (idxList : List Nat) : List (Except PyError β) :=
  getData dl (guideBatchify α β) batchSize idxList

/-- Modelled from the spec: the `Metrics` class lives in
`crslab/evaluator/metrics.py`, which is not among the given source files.
Per the spec it is a "Metric accumulator: object collecting per-example
metric values and producing an aggregate report at evaluation end"; it is
modelled as the sequence of added (name, value) pairs. -/
abbrev Metrics : Type := List (String × ℚ)

/-- `Metrics.add(key, value)` records one more per-example value. -/
def Metrics.add (ms : Metrics) (key : String) (v : ℚ) : Metrics := ms ++ [(key, v)]

/-- `Metrics.clear()` empties the accumulator. -/
def Metrics.clear (ms : Metrics) : Metrics := []

/-- Builds keys such as `hit@1` or `bleu@4` (the Python f-strings). -/
def mkKey (s : String) (k : Nat) : String := s ++ "@" ++ toString k

/-- State of a `RecEvaluator`: the two `Metrics` accumulators set up in
`__init__`. -/
structure RecEvaluatorState where
  recMetrics : Metrics
  optimMetrics : Metrics
  deriving DecidableEq

/-- `RecEvaluator.__init__`: both accumulators start empty. -/
def recInit : RecEvaluatorState := ⟨[], []⟩

/-- Embeds `RecEvaluator.rec_evaluate(ranks, label)`. The per-example
computations `HitMetric.compute`, `NDCGMetric.compute` and
`MRRMetric.compute` belong to the external metrics library (spec: "Metrics
library (external dependency, referenced not defined here)"), so they are
taken as parameters; only which values are added matters to the claims. -/
def recEvaluate (hitC ndcgC mrrC : List Nat → Nat → Nat → ℚ) (ranks : List Nat) (label : Nat)
    (st : RecEvaluatorState) : RecEvaluatorState :=
  { st with
    recMetrics := st.recMetrics ++
      (([1, 10, 50].map (fun k =>
        if k ≤ ranks.length then
          [(mkKey "hit" k, hitC ranks label k), (mkKey "ndcg" k, ndcgC ranks label k),
           (mkKey "mrr" k, mrrC ranks label k)]
        else [])).flatten) }

/-- Embeds `RecEvaluator.reset_metrics`: both accumulators are cleared. -/
def recReset (st : RecEvaluatorState) : RecEvaluatorState :=
  ⟨st.recMetrics.clear, st.optimMetrics.clear⟩

/-- State of a `ConvEvaluator`: `dist_set` is a defaultdict from the n-gram
order `k` (the key `dist@k`) to the set of recorded n-grams of the
hypothesis character sequence, with an absent key modelled as the empty
set; `dist_cnt`, `gen_metrics` and `optim_metrics` are as in `__init__`. -/
structure ConvEvaluatorState where
  distSet : Nat → Finset (List Char)
  distCnt : Nat
  genMetrics : Metrics
  optimMetrics : Metrics

/-- `ConvEvaluator.__init__`: empty dist sets, zero count, empty metrics. -/
def convInit : ConvEvaluatorState := ⟨fun _ => ∅, 0, [], []⟩

/-- The per-example generation metric computations used by `gen_evaluate`
(`F1Metric.compute`, `BleuMetric.compute` and the fasttext-embedding
metrics `GreedyMatch`, `EmbeddingAverage`, `VectorExtrema`), all from the
external metrics library, taken as parameters. -/
structure ConvComputes where
  f1C : List Char → List (List Char) → ℚ
  bleuC : List Char → List (List Char) → Nat → ℚ
  greedyC : List Char → List (List Char) → ℚ
  averageC : List Char → List (List Char) → ℚ
  extremeC : List Char → List (List Char) → ℚ

/-- Embeds `nltk.ngrams(hyp, k)` over the characters of `hyp`: the
contiguous k-grams, empty when `len(hyp) < k`. -/
def listNgrams (l : List Char) (k : Nat) : List (List Char) :=
  (List.range (l.length + 1 - k)).map (fun i => (l.drop i).take k)

/-- Embeds `ConvEvaluator.gen_evaluate(hyp, refs)` from
`conv_evaluator.py` lines 52-66: nothing happens for a falsy (empty) `hyp`;
otherwise f1, bleu@1..4 and the three embedding metrics are added to
`gen_metrics`, the character k-grams of `hyp` for k = 1..4 are added to
`dist_set[dist@k]`, and `dist_cnt` is incremented by one. -/
def genEvaluate (cc : ConvComputes) (hyp : List Char) (refs : List (List Char))
    (st : ConvEvaluatorState) : ConvEvaluatorState :=
  if hyp.isEmpty then st
  else
    { distSet := fun k =>
        if 1 ≤ k ∧ k ≤ 4 then st.distSet k ∪ (listNgrams hyp k).toFinset else st.distSet k,
      distCnt := st.distCnt + 1,
      genMetrics := st.genMetrics ++
        [("f1", cc.f1C hyp refs),
         (mkKey "bleu" 1, cc.bleuC hyp refs 1), (mkKey "bleu" 2, cc.bleuC hyp refs 2),
         (mkKey "bleu" 3, cc.bleuC hyp refs 3), (mkKey "bleu" 4, cc.bleuC hyp refs 4),
         ("greedy", cc.greedyC hyp refs), ("average", cc.averageC hyp refs),
         ("extreme", cc.extremeC hyp refs)],
      optimMetrics := st.optimMetrics }

/-- Embeds `ConvEvaluator.reset_metrics`: `gen_metrics.clear()`,
`dist_cnt = 0`, `dist_set.clear()`, `optim_metrics.clear()`. -/
def convReset (st : ConvEvaluatorState) : ConvEvaluatorState :=
  ⟨fun _ => ∅, 0, st.genMetrics.clear, st.optimMetrics.clear⟩

/-- The `ConvEvaluator` states reachable from `__init__` by any sequence of
`gen_evaluate` and `reset_metrics` calls. -/
inductive ConvReachable : ConvEvaluatorState → Prop where
  | init : ConvReachable convInit
  | gen (cc : ConvComputes) (hyp : List Char) (refs : List (List Char))
      (st : ConvEvaluatorState) : ConvReachable st → ConvReachable (genEvaluate cc hyp refs st)
  | reset (st : ConvEvaluatorState) : ConvReachable st → ConvReachable (convReset st)

/-- Trivial metric computations, used to instantiate the compute parameters
at concrete inputs. -/
def zeroComputes : ConvComputes :=
  ⟨fun _ _ => 0, fun _ _ _ => 0, fun _ _ => 0, fun _ _ => 0, fun _ _ => 0⟩

/-! ## Theorems -/

/-- C4 counterexample: with `max_length = 0`, `truncate_tail = False` and a
non-empty vector, Python's `vec[-0:]` is the whole vector, not the claimed
last 0 elements. -/
theorem truncate_cex :
    truncate [(1 : Int)] (some 0) false = [1] ∧
    truncate [(1 : Int)] (some 0) false ≠ [] := by
  decide

/-- C4 (amended): `truncate` returns `vec` unchanged when `max_length` is
`None` or `len(vec) <= max_length`; otherwise it returns the first
`max_length` elements when `truncate_tail` is true, and when `truncate_tail`
is false it returns the last `max_length` elements when `max_length > 0` but
`vec` unchanged when `max_length = 0`; in every case the result is a
contiguous initial or final segment of `vec`. -/
theorem truncate_spec {α : Type} (vec : List α) (maxLength : Option Nat) (tt : Bool) :
    (maxLength = none → truncate vec maxLength tt = vec) ∧
    (∀ m, maxLength = some m → vec.length ≤ m → truncate vec maxLength tt = vec) ∧
    (∀ m, maxLength = some m → m < vec.length → tt = true →
      truncate vec maxLength tt = vec.take m) ∧
    (∀ m, maxLength = some m → m < vec.length → tt = false → 0 < m →
      truncate vec maxLength tt = vec.drop (vec.length - m)) ∧
    (∀ m, maxLength = some m → m < vec.length → tt = false → m = 0 →
      truncate vec maxLength tt = vec) ∧
    ((∃ k, truncate vec maxLength tt = vec.take k) ∨
     (∃ k, truncate vec maxLength tt = vec.drop k)) := by
  refine ⟨?_, ?_, ?_, ?_, ?_, ?_⟩
  · rintro rfl; rfl
  · rintro m rfl hle; simp [truncate, hle]
  · rintro m rfl hlt rfl; simp [truncate, Nat.not_le.mpr hlt]
  · rintro m rfl hlt rfl hm
    simp [truncate, Nat.not_le.mpr hlt, negSlice, Nat.pos_iff_ne_zero.mp hm]
  · rintro m rfl hlt rfl rfl; simp [truncate, Nat.not_le.mpr hlt, negSlice]
  · match maxLength with
    | none => exact Or.inl ⟨vec.length, by simp [truncate]⟩
    | some m =>
      by_cases hle : vec.length ≤ m
      · exact Or.inl ⟨vec.length, by simp [truncate, hle]⟩
      · cases tt with
        | true => exact Or.inl ⟨m, by simp [truncate, hle]⟩
        | false =>
          by_cases hm : m = 0
          · exact Or.inr ⟨0, by simp [truncate, hle, negSlice, hm]⟩
          · exact Or.inr ⟨vec.length - m, by simp [truncate, hle, negSlice, hm]⟩

/-- C4 witness: at `vec = [1,2,3]`, `max_length = 2`, `truncate_tail = true`
the vector is truncated to its first two elements. -/
theorem truncate_spec_witness :
    truncate [(1 : Int), 2, 3] (some 2) true = [1, 2] := by
  have h := truncate_spec [(1 : Int), 2, 3] (some 2) true
  exact h.2.2.1 2 rfl (by decide) rfl

/-- C5 counterexample: with `max_length = 0`, `truncate_tail = False` and a
non-empty vector the result has length 1, not at most `max_length = 0`. -/
theorem truncate_idem_cex :
    (truncate [(1 : Int)] (some 0) false).length = 1 ∧
    ¬ (truncate [(1 : Int)] (some 0) false).length ≤ 0 := by
  decide

/-- C5 (amended): `truncate` is idempotent for every vector, `max_length`
and flag; and when `max_length = some m` the result's length is at most `m`
except in the case `m = 0`, `truncate_tail = false`, where the result is
`vec` itself (Python's `vec[-0:]`). -/
theorem truncate_idem {α : Type} (vec : List α) (maxLength : Option Nat) (tt : Bool) :
    truncate (truncate vec maxLength tt) maxLength tt = truncate vec maxLength tt ∧
    (∀ m, maxLength = some m →
      (truncate vec maxLength tt).length ≤ m ∨
      (m = 0 ∧ tt = false ∧ truncate vec maxLength tt = vec)) := by
  match maxLength with
  | none => exact ⟨rfl, by simp⟩
  | some m =>
    by_cases hle : vec.length ≤ m
    · constructor
      · simp [truncate, hle]
      · rintro m' hm'; cases hm'; exact Or.inl (by simp [truncate, hle])
    · cases tt with
      | true =>
        have hlen : (vec.take m).length = m := by
          simp [Nat.le_of_lt (Nat.not_le.mp hle)]
        constructor
        · simp only [truncate, if_neg hle, if_pos rfl]
          simp [hlen]
        · rintro m' hm'; cases hm'
          exact Or.inl (by simp [truncate, hle, hlen])
      | false =>
        by_cases hm : m = 0
        · subst hm
          have hv : truncate vec (some 0) false = vec := by
            simp [truncate, hle, negSlice]
          constructor
          · rw [hv]; exact hv
          · rintro m' hm'; cases hm'; exact Or.inr ⟨rfl, rfl, hv⟩
        · have hv : truncate vec (some m) false = vec.drop (vec.length - m) := by
            simp [truncate, hle, negSlice, hm]
          have hlen : (vec.drop (vec.length - m)).length = m := by
            simp; omega
          constructor
          · rw [hv]
            simp [truncate, hlen]
          · rintro m' hm'; cases hm'; exact Or.inl (le_of_eq (hv ▸ hlen))

/-- C5 witness: idempotence and the length bound at `vec = [1,2,3]`,
`max_length = 2`, `truncate_tail = true`. -/
theorem truncate_idem_witness :
    truncate (truncate [(1 : Int), 2, 3] (some 2) true) (some 2) true =
      truncate [(1 : Int), 2, 3] (some 2) true ∧
    (truncate [(1 : Int), 2, 3] (some 2) true).length ≤ 2 := by
  have h := truncate_idem [(1 : Int), 2, 3] (some 2) true
  refine ⟨h.1, ?_⟩
  rcases h.2 2 rfl with h2 | h2
  · exact h2
  · exact absurd h2.2.1 (by decide)

/-- C8: `reset_metrics` restores each evaluator to its freshly constructed
state: for the `ConvEvaluator`, `gen_metrics` and `optim_metrics` are
cleared, `dist_cnt` is 0 and `dist_set` is empty; for the `RecEvaluator`,
`rec_metrics` and `optim_metrics` are cleared — identical to the state
produced by `__init__`, whatever state the evaluator had reached. -/
theorem reset_metrics_restores_init :
    (∀ st : ConvEvaluatorState, convReset st = convInit) ∧
    (∀ st : RecEvaluatorState, recReset st = recInit) :=
  ⟨fun _ => rfl, fun _ => rfl⟩

/-- C3 counterexample: a `rec_evaluate` call with `len(ranks) = 1` adds
only the three k = 1 metric values (hit@1, ndcg@1, mrr@1), not nine, since
the k = 10 and k = 50 additions are guarded by `len(ranks) >= k`. -/
theorem rec_evaluate_cex :
    ((recEvaluate (fun _ _ _ => 0) (fun _ _ _ => 0) (fun _ _ _ => 0) [5] 0 recInit).recMetrics).length = 3 ∧
    ((recEvaluate (fun _ _ _ => 0) (fun _ _ _ => 0) (fun _ _ _ => 0) [5] 0 recInit).recMetrics).length ≠ 9 := by
  constructor
  · rfl
  · decide

/-- C3 (amended): every `rec_evaluate(ranks, label)` call appends to
`rec_metrics`, in order, the values hit@k, ndcg@k, mrr@k for exactly those
k in {1, 10, 50} with `len(ranks) >= k` — hence `3 * |{k in {1,10,50} :
k <= len(ranks)}|` values per call (nine only when `len(ranks) >= 50`) —
and leaves `optim_metrics` unchanged. -/
theorem rec_evaluate_adds (hitC ndcgC mrrC : List Nat → Nat → Nat → ℚ) (ranks : List Nat)
    (label : Nat) (st : RecEvaluatorState) :
    ∃ added : Metrics,
      (recEvaluate hitC ndcgC mrrC ranks label st).recMetrics = st.recMetrics ++ added ∧
      added.map Prod.fst =
        (([1, 10, 50].filter (fun k => k ≤ ranks.length)).map
          (fun k => [mkKey "hit" k, mkKey "ndcg" k, mkKey "mrr" k])).flatten ∧
      added.length = 3 * ([1, 10, 50].filter (fun k => k ≤ ranks.length)).length ∧
      (recEvaluate hitC ndcgC mrrC ranks label st).optimMetrics = st.optimMetrics := by
  refine ⟨_, rfl, ?_, ?_, rfl⟩ <;>
    by_cases h1 : 1 ≤ ranks.length <;> by_cases h10 : 10 ≤ ranks.length <;>
      by_cases h50 : 50 ≤ ranks.length <;> simp [h1, h10, h50]

/-- C6: `gen_evaluate(hyp, refs)` changes the evaluator exactly when `hyp`
is non-empty: then it appends f1, bleu@1..bleu@4 (and the three embedding
metrics) to `gen_metrics`, increments `dist_cnt` by exactly one and leaves
`optim_metrics` unchanged; for an empty (falsy) `hyp` the whole state is
unchanged. -/
theorem gen_evaluate_frame (cc : ConvComputes) (hyp : List Char) (refs : List (List Char))
    (st : ConvEvaluatorState) :
    (hyp = [] → genEvaluate cc hyp refs st = st) ∧
    (hyp ≠ [] →
      (genEvaluate cc hyp refs st).genMetrics =
        st.genMetrics ++
          [("f1", cc.f1C hyp refs),
           (mkKey "bleu" 1, cc.bleuC hyp refs 1), (mkKey "bleu" 2, cc.bleuC hyp refs 2),
           (mkKey "bleu" 3, cc.bleuC hyp refs 3), (mkKey "bleu" 4, cc.bleuC hyp refs 4),
           ("greedy", cc.greedyC hyp refs), ("average", cc.averageC hyp refs),
           ("extreme", cc.extremeC hyp refs)] ∧
      (genEvaluate cc hyp refs st).distCnt = st.distCnt + 1 ∧
      (genEvaluate cc hyp refs st).optimMetrics = st.optimMetrics) := by
  constructor
  · rintro rfl; simp [genEvaluate]
  · intro hne
    have he : hyp.isEmpty = false := by
      cases hyp with
      | nil => exact absurd rfl hne
      | cons a l => rfl
    simp [genEvaluate, he]

/-- C6 witness: an empty hypothesis leaves the initial state unchanged,
and the one-character hypothesis `"a"` increments `dist_cnt` to one. -/
theorem gen_evaluate_frame_witness :
    genEvaluate zeroComputes [] [] convInit = convInit ∧
    (genEvaluate zeroComputes ['a'] [] convInit).distCnt = convInit.distCnt + 1 := by
  have h0 := gen_evaluate_frame zeroComputes [] [] convInit
  have h1 := gen_evaluate_frame zeroComputes ['a'] [] convInit
  exact ⟨h0.1 rfl, (h1.2 (by decide)).2.1⟩

/-- C9: in every `ConvEvaluator` state reachable from `__init__` by
`gen_evaluate` and `reset_metrics` calls, a non-empty `dist_set` entry
implies `dist_cnt >= 1`, so `report`'s division `len(v) / dist_cnt` for a
recorded `dist@k` entry never divides by zero. -/
theorem conv_dist_invariant (st : ConvEvaluatorState) (h : ConvReachable st) :
    ∀ k, ((st.distSet k).Nonempty → 1 ≤ st.distCnt) := by
  induction h with
  | init =>
    intro k hk
    exact absurd hk (by simp [convInit])
  | gen cc hyp refs st' h' ih =>
    intro k hk
    by_cases he : hyp.isEmpty
    · simp only [genEvaluate, he, if_pos] at hk ⊢
      exact ih k hk
    · simp only [genEvaluate, he, Bool.false_eq_true, if_false]
      exact Nat.succ_le_succ (Nat.zero_le _)
  | reset st' h' ih =>
    intro k hk
    exact absurd hk (by simp [convReset])

/-- C9 witness: after one `gen_evaluate` call with hypothesis `"a"` the
entry `dist@1` is non-empty and `dist_cnt` is at least one. -/
theorem conv_dist_invariant_witness :
    ConvReachable (genEvaluate zeroComputes ['a'] [] convInit) ∧
    ((genEvaluate zeroComputes ['a'] [] convInit).distSet 1).Nonempty ∧
    1 ≤ (genEvaluate zeroComputes ['a'] [] convInit).distCnt := by
  have hr : ConvReachable (genEvaluate zeroComputes ['a'] [] convInit) :=
    ConvReachable.gen _ _ _ _ ConvReachable.init
  have hne : ((genEvaluate zeroComputes ['a'] [] convInit).distSet 1).Nonempty := by
    refine ⟨['a'], ?_⟩
    simp [genEvaluate, convInit, listNgrams]
  exact ⟨hr, hne, conv_dist_invariant _ hr 1 hne⟩

/-- Helper: `getD` with the replicated element as default is that element. -/
theorem getD_replicate_self {α : Type} (a : α) (n i : Nat) :
    (List.replicate n a).getD i a = a := by
  by_cases h : i < (List.replicate n a).length
  · rw [List.getD_eq_getElem _ _ h]; simp
  · rw [List.getD_eq_default _ _ (Nat.le_of_not_lt h)]

/-- Helper: `getD` through `map` at an in-range index. -/
theorem getD_map_of_lt {α β : Type} (l : List α) (f : α → β) (i : Nat) (hi : i < l.length)
    (d : α) (d' : β) : (l.map f).getD i d' = f (l.getD i d) := by
  rw [List.getD_eq_getElem _ _ (by simpa using hi), List.getD_eq_getElem _ _ hi]
  simp

/-- Helper: every member of a list of naturals is bounded by its
`foldr max 0` (the Python `max(lens)`). -/
theorem le_foldr_max (l : List Nat) (x : Nat) (h : x ∈ l) : x ≤ l.foldr max 0 := by
  induction l with
  | nil => cases h
  | cons a l ih =>
    rcases List.mem_cons.mp h with rfl | hl
    · exact Nat.le_max_left _ _
    · exact le_trans (ih hl) (Nat.le_max_right _ _)

/-- Helper: a fitting padded row has exactly the matrix width. -/
theorem padRow_length (t : Nat) (p : Int) (rp : Bool) (item : List Int)
    (h : item.length ≤ t) : (padRow t p rp item).length = t := by
  cases rp <;> simp [padRow] <;> omega

/-- Helper: entries of a right-padded row. -/
theorem padRow_getD_true (t : Nat) (p : Int) (item : List Int) (h : item.length ≤ t)
    (j : Nat) (hj : j < t) :
    (padRow t p true item).getD j p = if j < item.length then item.getD j p else p := by
  by_cases hjl : j < item.length
  · rw [if_pos hjl]
    simp only [padRow, if_pos]
    exact List.getD_append _ _ _ _ hjl
  · rw [if_neg hjl]
    simp only [padRow, if_pos]
    rw [List.getD_append_right _ _ _ _ (Nat.le_of_not_lt hjl)]
    exact getD_replicate_self _ _ _

/-- Helper: entries of a left-padded row. -/
theorem padRow_getD_false (t : Nat) (p : Int) (item : List Int) (h : item.length ≤ t)
    (j : Nat) (hj : j < t) :
    (padRow t p false item).getD j p =
      if j < t - item.length then p else item.getD (j - (t - item.length)) p := by
  by_cases hjr : j < t - item.length
  · rw [if_pos hjr]
    simp only [padRow, Bool.false_eq_true, if_false]
    rw [List.getD_append _ _ _ _ (by simpa using hjr)]
    exact getD_replicate_self _ _ _
  · rw [if_neg hjr]
    simp only [padRow, Bool.false_eq_true, if_false]
    rw [List.getD_append_right _ _ _ _ (by simpa using Nat.le_of_not_lt hjr)]
    simp

/-- C1 counterexample: with `max_len = 1` and the single item `[1, 2]` of
length 2, `padded_tensor` does not return a matrix at all: the row
assignment `output[0, :2] = item` is a shape mismatch and Python raises. -/
theorem padded_tensor_cex : paddedTensor [[1, 2]] 0 true (some 1) = none := by
  rfl

/-- C1 (amended): provided `items` is non-empty and every item's length is
at most the matrix width `t` (`t = max(max item length, 1)` when `max_len`
is `None`, `t = max(max_len, 1)` otherwise — the length bound is automatic
in the `None` case), `padded_tensor` returns an n-by-t matrix in which,
when `right_padded` is true, row i holds item i's tokens in positions
`0..len(item_i)-1` and `pad_idx` in every remaining position, and, when
`right_padded` is false, row i holds item i's tokens in the last
`len(item_i)` positions and `pad_idx` everywhere before them; every row has
the same fixed length t. -/
theorem padded_tensor_spec (items : List (List Int)) (p : Int) (rp : Bool) (maxLen : Option Nat)
    (hne : items ≠ [])
    (hfit : ∀ it ∈ items, it.length ≤ padWidth items maxLen) :
    ∃ M, paddedTensor items p rp maxLen = some M ∧
      M.length = items.length ∧
      (∀ i, i < items.length → (M.getD i []).length = padWidth items maxLen) ∧
      (∀ i, i < items.length → ∀ j, j < padWidth items maxLen →
        (M.getD i []).getD j p =
          if rp then
            (if j < (items.getD i []).length then (items.getD i []).getD j p else p)
          else
            (if j < padWidth items maxLen - (items.getD i []).length then p
             else (items.getD i []).getD (j - (padWidth items maxLen - (items.getD i []).length)) p)) := by
  have hempty : items.isEmpty = false := by
    cases items with
    | nil => exact absurd rfl hne
    | cons a l => rfl
  have hall : items.all (fun it => it.length ≤ padWidth items maxLen) = true := by
    rw [List.all_eq_true]
    intro it hit
    simpa using hfit it hit
  refine ⟨items.map (padRow (padWidth items maxLen) p rp), ?_, by simp, ?_, ?_⟩
  · simp only [paddedTensor, hempty, Bool.false_eq_true, if_false, hall, if_pos]
  · intro i hi
    have hmem : items.getD i [] ∈ items := by
      rw [List.getD_eq_getElem _ _ hi]
      exact List.getElem_mem hi
    rw [getD_map_of_lt items _ i hi []]
    exact padRow_length _ _ _ _ (hfit _ hmem)
  · intro i hi j hj
    have hmem : items.getD i [] ∈ items := by
      rw [List.getD_eq_getElem _ _ hi]
      exact List.getElem_mem hi
    rw [getD_map_of_lt items _ i hi []]
    cases rp with
    | true => simpa using padRow_getD_true _ p _ (hfit _ hmem) j hj
    | false => simpa using padRow_getD_false _ p _ (hfit _ hmem) j hj

/-- C1 witness: for `items = [[1,2],[3]]` with `max_len = None`, the padded
matrix exists, has two rows, and has width `t = 2`. -/
theorem padded_tensor_spec_witness :
    ([[1, 2], [3]] : List (List Int)) ≠ [] ∧
    (∀ it ∈ ([[1, 2], [3]] : List (List Int)), it.length ≤ padWidth [[1, 2], [3]] none) ∧
    ∃ M, paddedTensor [[1, 2], [3]] 0 true none = some M ∧ M.length = 2 := by
  refine ⟨by decide, by decide, ?_⟩
  obtain ⟨M, hM, hlen, -, -⟩ := padded_tensor_spec [[1, 2], [3]] 0 true none (by decide) (by decide)
  exact ⟨M, hM, by rw [hlen]; rfl⟩

/-- C10 counterexample: the target width is not `max_len` itself but
`max(max_len, 1)`: at `items = [[5]]` with `max_len = 0` the code sets
`t = max(0, 1) = 1`, the row assignment `output[0, :1] = item` fits, and
`padded_tensor` succeeds even though `max_len` is smaller than the item's
length — contradicting the claim that the row assignment fails there. -/
theorem padded_tensor_partiality_cex :
    paddedTensor [[5]] 0 true (some 0) = some [[5]] ∧
    (paddedTensor [[5]] 0 true (some 0)).isSome = true := by
  exact ⟨rfl, rfl⟩

/-- C10 (amended): `padded_tensor` succeeds exactly when `items` is
non-empty and every item's length is at most the target width `t`
(`t = max(max_len, 1)` when `max_len` is given, else the maximum item
length): the empty `items` list fails, and when `max(max_len, 1)` is
smaller than some item's length the row assignment fails, with no
truncation performed inside `padded_tensor`. -/
theorem padded_tensor_partiality (items : List (List Int)) (p : Int) (rp : Bool)
    (maxLen : Option Nat) :
    (paddedTensor items p rp maxLen).isSome = true ↔
      (items ≠ [] ∧ ∀ it ∈ items, it.length ≤ padWidth items maxLen) := by
  simp only [paddedTensor]
  split_ifs with h1 h2
  · simp [List.isEmpty_iff.mp h1]
  · simp only [Option.isSome_some, true_iff]
    refine ⟨by simpa [List.isEmpty_iff] using h1, ?_⟩
    intro it hit
    simpa using List.all_eq_true.mp h2 it hit
  · simp only [Option.isSome_none, Bool.false_eq_true, false_iff, not_and]
    intro hne hfit
    exact absurd (by rw [List.all_eq_true]; intro it hit; simpa using hfit it hit) h2

/-- Helper: the ceiling division covers the dataset, `n <= batch_num * b`. -/
theorem le_batchNum_mul (n b : Nat) (hb : 1 ≤ b) : n ≤ batchNum n b * b := by
  have h1 := Nat.div_add_mod' (n + b - 1) b
  have h2 : (n + b - 1) % b < b := Nat.mod_lt _ hb
  unfold batchNum
  generalize (n + b - 1) / b * b = A at h1 ⊢
  generalize (n + b - 1) % b = r at h1 h2
  omega

/-- Helper: a non-empty dataset yields at least one batch. -/
theorem batchNum_pos (n b : Nat) (hn : 1 ≤ n) (hb : 1 ≤ b) : 1 ≤ batchNum n b := by
  unfold batchNum
  rw [Nat.one_le_div_iff (by omega)]
  omega

/-- Helper: every batch index but the last leaves at least `b` elements,
`(s+1) * b < n` whenever `s + 1 < batch_num`. -/
theorem succ_mul_lt_of_lt_batchNum (n b s : Nat) (hb : 1 ≤ b)
    (hs : s + 1 < batchNum n b) : (s + 1) * b < n := by
  have h3 := Nat.div_mul_le_self (n + b - 1) b
  have h4 : (s + 2) * b ≤ (n + b - 1) / b * b := by
    apply Nat.mul_le_mul_right
    unfold batchNum at hs
    omega
  have h5 : (s + 2) * b = (s + 1) * b + b := by ring
  rw [h5] at h4
  generalize (s + 1) * b = A at h4 ⊢
  generalize (n + b - 1) / b * b = B at h3 h4
  omega

/-- Helper: concatenating the slices `l[s*b : (s+1)*b]` for `s < m` gives
the first `m * b` elements of `l`. -/
theorem flatten_chunks {α : Type} (b m : Nat) (l : List α) :
    ((List.range m).map (fun s => (l.drop (s * b)).take b)).flatten = l.take (m * b) := by
  induction m generalizing l with
  | zero => simp
  | succ m ih =>
    rw [List.range_succ_eq_map]
    simp only [List.map_cons, List.map_map, List.flatten_cons, Nat.zero_mul, List.drop_zero]
    have hcong : (List.range m).map ((fun s => (l.drop (s * b)).take b) ∘ Nat.succ) =
        (List.range m).map (fun s => ((l.drop b).drop (s * b)).take b) := by
      apply List.map_congr_left
      intro s hs
      simp only [Function.comp]
      rw [List.drop_drop]
      congr 2
      rw [Nat.succ_mul, Nat.add_comm]
    rw [hcong, ih, ← List.take_add]
    congr 1
    ring

/-- Helper: indexing the range of a list's length reproduces the list,
`[l[i] for i in range(len(l))] = l`. -/
theorem map_getD_range {α : Type} (l : List α) (d : α) :
    (List.range l.length).map (fun i => l.getD i d) = l := by
  induction l with
  | nil => simp
  | cons a tl ih =>
    rw [show (a :: tl).length = tl.length + 1 from rfl, List.range_succ_eq_map]
    simp only [List.map_cons, List.map_map]
    have hcong : (List.range tl.length).map ((fun i => (a :: tl).getD i d) ∘ Nat.succ) =
        (List.range tl.length).map (fun i => tl.getD i d) := by
      apply List.map_congr_left
      intro i hi
      rfl
    rw [hcong, ih]
    rfl

/-- C2 counterexample: splitting the three-element dataset `[0, 1, 2]` with
`batch_size = 2` yields a final batch of length 1, so not every batch has
exactly `batch_size` elements. -/
theorem batch_split_cex :
    ¬ (∀ batch ∈ batchSplit ([0, 1, 2] : List Nat) 2 (List.range 3), batch.length = 2) := by
  decide

/-- C2 (amended): for `batch_size >= 1` and an index list that is a
permutation of `range(len(dataset))` (`shuffle=True`; the identity for
`shuffle=False`), `batch_split` yields exactly `ceil(len(dataset) /
batch_size)` batches; batch `s` has `min(batch_size, len(dataset) - s *
batch_size)` elements, so every batch except possibly the last has exactly
`batch_size` elements; the concatenation of the batches is a permutation of
the dataset, and equals the dataset in order when the index list is
unshuffled. -/
theorem batch_split_spec {α : Type} [Inhabited α] (dataset : List α) (b : Nat)
    (idxList : List Nat) (hb : 1 ≤ b) (hperm : idxList.Perm (List.range dataset.length)) :
    (batchSplit dataset b idxList).length = batchNum dataset.length b ∧
    (∀ s, s < batchNum dataset.length b →
      ((batchSplit dataset b idxList).getD s []).length = min b (dataset.length - s * b)) ∧
    (∀ s, s + 1 < batchNum dataset.length b →
      ((batchSplit dataset b idxList).getD s []).length = b) ∧
    ((batchSplit dataset b idxList).flatten).Perm dataset ∧
    (idxList = List.range dataset.length → (batchSplit dataset b idxList).flatten = dataset) := by
  have hlen : idxList.length = dataset.length := by simpa using hperm.length_eq
  have hgetDs : ∀ s, s < batchNum dataset.length b →
      ((batchSplit dataset b idxList).getD s []).length = min b (dataset.length - s * b) := by
    intro s hs
    unfold batchSplit
    rw [getD_map_of_lt _ _ s (by simpa using hs) 0]
    rw [List.getD_eq_getElem _ _ (by simpa using hs)]
    simp [hlen, Nat.min_comm]
  have hflat : (batchSplit dataset b idxList).flatten =
      idxList.map (fun i => dataset.getD i default) := by
    unfold batchSplit
    rw [show (List.range (batchNum dataset.length b)).map
          (fun s => ((idxList.drop (s * b)).take b).map (fun i => dataset.getD i default)) =
        ((List.range (batchNum dataset.length b)).map
          (fun s => (idxList.drop (s * b)).take b)).map
          (List.map (fun i => dataset.getD i default)) by rw [List.map_map]; rfl]
    rw [← List.map_flatten, flatten_chunks]
    congr 1
    exact List.take_of_length_le (by rw [hlen]; exact le_batchNum_mul _ _ hb)
  refine ⟨by simp [batchSplit], hgetDs, ?_, ?_, ?_⟩
  · intro s hs
    rw [hgetDs s (by omega)]
    have h1 : (s + 1) * b < dataset.length := succ_mul_lt_of_lt_batchNum _ _ _ hb hs
    have h2 : (s + 1) * b = s * b + b := by ring
    generalize s * b = A at h1 h2 ⊢
    omega
  · rw [hflat]
    have h := hperm.map (fun i => dataset.getD i default)
    rwa [map_getD_range] at h
  · intro hid
    rw [hflat, hid, map_getD_range]

/-- C2 witness: splitting `[0, 1, 2]` with `batch_size = 2` and the
unshuffled index list yields `ceil(3/2) = 2` batches whose concatenation is
the dataset in order. -/
theorem batch_split_spec_witness :
    (1 : Nat) ≤ 2 ∧ (List.range 3).Perm (List.range ([0, 1, 2] : List Nat).length) ∧
    (batchSplit ([0, 1, 2] : List Nat) 2 (List.range 3)).length = batchNum 3 2 ∧
    (batchSplit ([0, 1, 2] : List Nat) 2 (List.range 3)).flatten = [0, 1, 2] := by
  have h := batch_split_spec ([0, 1, 2] : List Nat) 2 (List.range 3) (by decide)
    (List.Perm.refl _)
  exact ⟨by decide, List.Perm.refl _, h.1, h.2.2.2.2 rfl⟩

/-- C7: on a `BaseDataLoader` that does not override the batchify hooks,
`conv_batchify`, `rec_batchify` and `guide_batchify` raise
`NotImplementedError` on every batch, and requesting the first batch from
`get_conv_data`, `get_rec_data` or `get_guide_data` on a non-empty dataset
yields `NotImplementedError`; a concrete per-task dataloader must supply
these methods to get any batch through. -/
theorem base_dataloader_not_implemented {α β : Type} [Inhabited α] (dl : BaseDataLoader α)
    (b : Nat) (idxList : List Nat) (hne : dl.dataset ≠ []) (hb : 1 ≤ b) :
    (∀ batch : List α,
      (∃ msg, convBatchify α β batch = .error (.notImplementedError msg)) ∧
      (∃ msg, recBatchify α β batch = .error (.notImplementedError msg)) ∧
      (∃ msg, guideBatchify α β batch = .error (.notImplementedError msg))) ∧
    (∃ msg, (getConvData α β dl b idxList).head? = some (.error (.notImplementedError msg))) ∧
    (∃ msg, (getRecData α β dl b idxList).head? = some (.error (.notImplementedError msg))) ∧
    (∃ msg, (getGuideData α β dl b idxList).head? = some (.error (.notImplementedError msg))) := by
  have hpos : 1 ≤ batchNum dl.dataset.length b :=
    batchNum_pos _ _ (by cases hd : dl.dataset with
      | nil => exact absurd hd hne
      | cons a l => simp [hd]) hb
  have hsplit : batchSplit dl.dataset b idxList ≠ [] := by
    intro h
    have := congrArg List.length h
    simp [batchSplit] at this
    omega
  have hhead : ∀ (batchFn : List α → Except PyError β) (e : PyError),
      (∀ batch, batchFn batch = .error e) →
      (getData dl batchFn b idxList).head? = some (.error e) := by
    intro batchFn e hfn
    cases hs : batchSplit dl.dataset b idxList with
    | nil => exact absurd hs hsplit
    | cons a t => simp [getData, hs, hfn]
  exact ⟨fun batch => ⟨⟨_, rfl⟩, ⟨_, rfl⟩, ⟨_, rfl⟩⟩,
    ⟨_, hhead (convBatchify α β) _ (fun _ => rfl)⟩,
    ⟨_, hhead (recBatchify α β) _ (fun _ => rfl)⟩,
    ⟨_, hhead (guideBatchify α β) _ (fun _ => rfl)⟩⟩

/-- C7 witness: a non-overridden loader over the one-element dataset `[0]`
returns `NotImplementedError` as its first conversation batch. -/
theorem base_dataloader_not_implemented_witness :
    (⟨[0]⟩ : BaseDataLoader Nat).dataset ≠ [] ∧ (1 : Nat) ≤ 1 ∧
    ∃ msg, (getConvData Nat Unit ⟨[0]⟩ 1 [0]).head? = some (.error (.notImplementedError msg)) := by
  have h := base_dataloader_not_implemented (β := Unit) (⟨[0]⟩ : BaseDataLoader Nat) 1 [0]
    (by decide) (by decide)
  exact ⟨by decide, by decide, h.2.1⟩
